import Mathlib

/-!
Verification of the rs-store specification against a shallow embedding of the
source.  Byte strings are modelled as List Nat (each element < 256), machine
integers as Nat with explicit truncation where the source relies on wrapping.
Fallible code returns Option or Except; a Rust panic is an error value.
-/

set_option maxRecDepth 100000

deriving instance DecidableEq for Except

namespace RsStore

/-- Bytes of an ASCII string. -/
def asciiBytes (s : String) : List Nat := s.toList.map Char.toNat

namespace Sha256

/-!
Modelled from the spec: SHA-256 (FIPS 180-4).  The repository delegates
hashing to the external crypto crate (src/hash/context.rs wraps
crypto::sha2::Sha256), so the digest itself is embedded from its standard
mathematical definition.  Words are Nat reduced mod 2^32.
-/

/-- Truncate to a 32-bit word. -/
def w32 (x : Nat) : Nat := x % 4294967296

/-- Rotate a 32-bit word right by n. -/
def rotr (n x : Nat) : Nat := w32 ((x >>> n) ||| (x <<< (32 - n)))

def ch (x y z : Nat) : Nat := Nat.xor (Nat.land x y) (Nat.land (Nat.xor x 4294967295) z)

def maj (x y z : Nat) : Nat := Nat.xor (Nat.xor (Nat.land x y) (Nat.land x z)) (Nat.land y z)

def bs0 (x : Nat) : Nat := Nat.xor (Nat.xor (rotr 2 x) (rotr 13 x)) (rotr 22 x)

def bs1 (x : Nat) : Nat := Nat.xor (Nat.xor (rotr 6 x) (rotr 11 x)) (rotr 25 x)

def ss0 (x : Nat) : Nat := Nat.xor (Nat.xor (rotr 7 x) (rotr 18 x)) (x >>> 3)

def ss1 (x : Nat) : Nat := Nat.xor (Nat.xor (rotr 17 x) (rotr 19 x)) (x >>> 10)

/-- The 64 round constants. -/
def K : List Nat :=
  [1116352408, 1899447441, 3049323471, 3921009573, 961987163, 1508970993,
   2453635748, 2870763221, 3624381080, 310598401, 607225278, 1426881987,
   1925078388, 2162078206, 2614888103, 3248222580, 3835390401, 4022224774,
   264347078, 604807628, 770255983, 1249150122, 1555081692, 1996064986,
   2554220882, 2821834349, 2952996808, 3210313671, 3336571891, 3584528711,
   113926993, 338241895, 666307205, 773529912, 1294757372, 1396182291,
   1695183700, 1986661051, 2177026350, 2456956037, 2730485921, 2820302411,
   3259730800, 3345764771, 3516065817, 3600352804, 4094571909, 275423344,
   430227734, 506948616, 659060556, 883997877, 958139571, 1322822218,
   1537002063, 1747873779, 1955562222, 2024104815, 2227730452, 2361852424,
   2428436474, 2756734187, 3204031479, 3329325298]

/-- The initial hash value. -/
def H0 : List Nat :=
  [1779033703, 3144134277, 1013904242, 2773480762,
   1359893119, 2600822924, 528734635, 1541459225]

/-- Big-endian 32-bit words from bytes. -/
def toWordsBE : List Nat → List Nat
  | b0 :: b1 :: b2 :: b3 :: rest => (((b0 * 256 + b1) * 256 + b2) * 256 + b3) :: toWordsBE rest
  | _ => []

/-- Expand the 16 block words to the 64-entry message schedule. -/
def msgSchedule (w16 : List Nat) : List Nat :=
  (List.range 64).foldl
    (fun ws t =>
      if t < 16 then ws ++ [w16.getD t 0]
      else ws ++ [w32 (ss1 (ws.getD (t-2) 0) + ws.getD (t-7) 0 + ss0 (ws.getD (t-15) 0) + ws.getD (t-16) 0)])
    []

/-- One compression round. -/
def round (st : List Nat) (kw : Nat × Nat) : List Nat :=
  match st with
  | [a, b, c, d, e, f, g, h] =>
    let t1 := w32 (h + bs1 e + ch e f g + kw.1 + kw.2)
    let t2 := w32 (bs0 a + maj a b c)
    [w32 (t1 + t2), a, b, c, w32 (d + t1), e, f, g]
  | st => st

/-- Compress one 64-byte block into the running state. -/
def compress (hs : List Nat) (block : List Nat) : List Nat :=
  let ws := msgSchedule (toWordsBE block)
  let st := (K.zip ws).foldl round hs
  List.zipWith (fun x y => w32 (x + y)) hs st

/-- Big-endian bytes of a number, k bytes wide. -/
def beBytes (k n : Nat) : List Nat :=
  (List.range k).map (fun i => n / 256 ^ (k - 1 - i) % 256)

/-- Merkle-Damgard padding: 0x80, zeros, 64-bit big-endian bit length. -/
def pad (msg : List Nat) : List Nat :=
  msg ++ [128] ++ List.replicate ((64 - (msg.length + 9) % 64) % 64) 0 ++ beBytes 8 (8 * msg.length)

/-- Split into 64-byte blocks; the fuel equals the list length, which bounds
the number of blocks. -/
def chunksAux : Nat → List Nat → List (List Nat)
  | 0, _ => []
  | fuel + 1, l => if l = [] then [] else l.take 64 :: chunksAux fuel (l.drop 64)

def chunks (l : List Nat) : List (List Nat) := chunksAux l.length l

/-- SHA-256 digest (32 bytes) of a byte string. -/
def sha256 (msg : List Nat) : List Nat :=
  ((chunks (pad msg)).foldl compress H0).foldr (fun w acc => beBytes 4 w ++ acc) []

end Sha256

/-! ## base32 codec (src/base32.rs) -/

namespace Base32

/-- The fixed alphabet from src/base32.rs: omits e, o, t, u. -/
def BASE32_CHARS : List Nat := asciiBytes "0123456789abcdfghijklmnpqrsvwxyz"

/-- The reverse lookup table BASE32_CHARS_REVERSE: the alphabet index of a
byte, or 0xff when the byte is not in the alphabet. -/
def base32Rev (c : Nat) : Nat :=
  let i := BASE32_CHARS.indexOf c
  if i < 32 then i else 255

/-- Number of characters encode produces for i input bytes (encode_len). -/
def encodeLen (i : Nat) : Nat := if i = 0 then 0 else (i * 8 - 1) / 5 + 1

/-- Number of bytes decode produces for i input characters (decode_len). -/
def decodeLen (i : Nat) : Nat := i * 5 / 8

/-- The inner while loop of encode_into: while more than 5 bits are pending,
emit the low 5 bits.  The fuel bounds the iteration count; nrBits is enough
since every iteration removes 5 bits. -/
def drainF : Nat → Nat → Nat → List Nat × Nat × Nat
  | 0, bits, nrBits => ([], bits, nrBits)
  | fuel + 1, bits, nrBits =>
    if 5 < nrBits then
      let p := drainF fuel (bits >>> 5) (nrBits - 5)
      (Nat.land bits 31 :: p.1, p.2)
    else ([], bits, nrBits)

def drain (bits nrBits : Nat) : List Nat × Nat × Nat := drainF nrBits bits nrBits

/-- The byte loop of encode_into, producing the emitted 5-bit digits in
emission order (the Rust code stores them into the output buffer from the
end, so the buffer holds their reversal).  bits_left is a u16 in the source,
hence the mod 65536 on the shifted-in byte. -/
def encodeCore : List Nat → Nat → Nat → List Nat
  | [], bits, nrBits => if 0 < nrBits then [Nat.land bits 31] else []
  | b :: bs, bits, nrBits =>
    let bits1 := bits ||| ((b <<< nrBits) % 65536)
    match drain bits1 (nrBits + 8) with
    | (ds, bits2, nr2) => ds ++ encodeCore bs bits2 nr2

/-- All digits emitted for an input, lowest 5-bit group first. -/
def encodeDigits (input : List Nat) : List Nat := encodeCore input 0 0

/-- encode: the output buffer read left to right, as alphabet bytes. -/
def encode (input : List Nat) : List Nat :=
  (encodeDigits input).reverse.map (fun d => BASE32_CHARS.getD d 0)

/-- The loop of decode_into over the reversed input: shift 5 bits in per
character, emit a byte whenever 8 bits are available.  none models the
InvalidBase32 error for a character outside the alphabet. -/
def decodeCore : List Nat → Nat → Nat → Option (List Nat × Nat × Nat)
  | [], bits, nrBits => some ([], bits, nrBits)
  | c :: cs, bits, nrBits =>
    let b := base32Rev c
    if b = 255 then none
    else
      let bits1 := bits ||| ((b <<< nrBits) % 65536)
      let nr1 := nrBits + 5
      if 8 ≤ nr1 then
        match decodeCore cs (bits1 >>> 8) (nr1 - 8) with
        | none => none
        | some (out, b2, n2) => some (bits1 % 256 :: out, b2, n2)
      else
        decodeCore cs bits1 nr1

/-- decode: processes the input characters in reverse and rejects leftover
nonzero bits (InvalidBase32), as in decode_into. -/
def decode (input : List Nat) : Option (List Nat) :=
  match decodeCore input.reverse 0 0 with
  | none => none
  | some (out, bits, nrBits) => if 0 < nrBits ∧ bits ≠ 0 then none else some out

end Base32

/-! ## hash engine (src/hash.rs) -/

inductive HashType where
  | md5 | sha1 | sha256 | sha512
deriving DecidableEq, Repr

/-- Digest size in bytes (HashType::size). -/
def HashType.size : HashType → Nat
  | .md5 => 16
  | .sha1 => 20
  | .sha256 => 32
  | .sha512 => 64

/-- Display name of the algorithm. -/
def HashType.str : HashType → String
  | .md5 => "md5"
  | .sha1 => "sha1"
  | .sha256 => "sha256"
  | .sha512 => "sha512"

/-- HashType::from_str. -/
def hashTypeFromStr (s : String) : Option HashType :=
  if s = "md5" then some .md5
  else if s = "sha1" then some .sha1
  else if s = "sha256" then some .sha256
  else if s = "sha512" then some .sha512
  else none

inductive Encoding where
  | base64 | base32 | base16 | sri
deriving DecidableEq, Repr

/-- Hash: the source stores a 64-byte buffer plus a length; the embedding
keeps exactly the meaningful prefix data[0..len] (as_bytes), so data.length
plays the role of the len field. -/
structure Hash where
  data : List Nat
  ty : HashType
deriving DecidableEq, Repr

def lenBase16 (size : Nat) : Nat := size * 2

def lenBase32 (size : Nat) : Nat := (size * 8 - 1) / 5 + 1

/-- len_base64: ((4n/3) + 3) with the low two bits cleared by the usize
mask !3 = 2^64 - 4. -/
def lenBase64 (size : Nat) : Nat := Nat.land (4 * size / 3 + 3) (2 ^ 64 - 4)

/-- Lowercase hex digits. -/
def hexChars : List Nat := asciiBytes "0123456789abcdef"

/-- bin2hex, lowercase. -/
def hexBytes (bytes : List Nat) : List Nat :=
  bytes.foldr (fun b acc => hexChars.getD (b / 16) 0 :: hexChars.getD (b % 16) 0 :: acc) []

/-- The standard base64 alphabet used by binascii::b64encode. -/
def b64Chars : List Nat :=
  asciiBytes "ABCDEFGHIJKLMNOPQRSTUVWXYZabcdefghijklmnopqrstuvwxyz0123456789+/"

/-- Standard base64 with = padding (binascii::b64encode). -/
def b64Bytes : List Nat → List Nat
  | b0 :: b1 :: b2 :: rest =>
    b64Chars.getD (b0 / 4) 0 :: b64Chars.getD ((b0 % 4) * 16 + b1 / 16) 0 ::
      b64Chars.getD ((b1 % 16) * 4 + b2 / 64) 0 :: b64Chars.getD (b2 % 64) 0 :: b64Bytes rest
  | [b0, b1] =>
    [b64Chars.getD (b0 / 4) 0, b64Chars.getD ((b0 % 4) * 16 + b1 / 16) 0,
     b64Chars.getD ((b1 % 16) * 4) 0, 61]
  | [b0] =>
    [b64Chars.getD (b0 / 4) 0, b64Chars.getD ((b0 % 4) * 16) 0, 61, 61]
  | [] => []

def stringOfBytes (l : List Nat) : String := String.mk (l.map Char.ofNat)

/-- Hash::encode_impl. -/
def hashEncodeImpl (h : Hash) (e : Encoding) : String :=
  match e with
  | .base16 => stringOfBytes (hexBytes h.data)
  | .base32 => stringOfBytes (Base32.encode h.data)
  | .base64 => stringOfBytes (b64Bytes h.data)
  | .sri => stringOfBytes (b64Bytes h.data)

/-- Hash::encode_with_type. -/
def hashEncodeWithType (h : Hash) (e : Encoding) : String :=
  h.ty.str ++ (if e = .sri then "-" else ":") ++ hashEncodeImpl h e

/-- Hash::encode. -/
def hashEncode (h : Hash) (e : Encoding) : String :=
  if e = .sri then hashEncodeWithType h e else hashEncodeImpl h e

inductive HashError where
  | wrongHashLen (n : Nat)
  | untypedHash (s : String)
  | unknownHashType (s : String)
  | invalidBase32
  | invalidBase16
  /-- Models the todo!() panic in Hash::decode_with_type: the base64 and SRI
  decoding branch of the source is unimplemented and panics. -/
  | todoUnimplemented
deriving DecidableEq, Repr

/-- util::break_str: split at the first occurrence of a character. -/
def breakStr (s : String) (c : Char) : Option (String × String) :=
  match s.toList.findIdx? (· = c) with
  | some i => some (String.mk (s.toList.take i), String.mk (s.toList.drop (i + 1)))
  | none => none

/-- Value of one hex digit character (byte). -/
def hexVal (c : Nat) : Option Nat :=
  let i := hexChars.indexOf c
  if i < 16 then some i else none

/-- binascii::hex2bin on lowercase-or-digit input of even length. -/
def hex2bin : List Nat → Option (List Nat)
  | [] => some []
  | c0 :: c1 :: rest =>
    match hexVal c0, hexVal c1 with
    | some h, some l => (hex2bin rest).map (fun bs => (h * 16 + l) :: bs)
    | _, _ => none
  | _ => none

/-- Hash::decode_with_type.  The final branch of the source is todo!(), a
panic, modelled as the todoUnimplemented error. -/
def hashDecodeWithType (input : String) (ty : HashType) (sri : Bool) : Except HashError Hash :=
  if ¬sri ∧ input.length = lenBase16 ty.size then
    match hex2bin (asciiBytes input) with
    | some bytes => .ok ⟨bytes, ty⟩
    | none => .error .invalidBase16
  else if ¬sri ∧ input.length = lenBase32 ty.size then
    match Base32.decode (asciiBytes input) with
    | some bytes => .ok ⟨bytes, ty⟩
    | none => .error .invalidBase32
  else .error .todoUnimplemented

/-- Hash::decode. -/
def hashDecode (input : String) : Except HashError Hash :=
  match breakStr input ':' with
  | some (ty, rest) =>
    match hashTypeFromStr ty with
    | some t => hashDecodeWithType rest t false
    | none => .error (.unknownHashType ty)
  | none =>
    match breakStr input '-' with
    | some (ty, rest) =>
      match hashTypeFromStr ty with
      | some t => hashDecodeWithType rest t true
      | none => .error (.unknownHashType ty)
    | none => .error (.untypedHash input)

/-- Hash::hash_bytes with SHA-256 (the only algorithm make_store_path and
add_nar use). -/
def sha256Hash (msg : List Nat) : Hash := ⟨Sha256.sha256 msg, .sha256⟩

/-- Hash::truncate.  When new_size is at least the length, the hash is
returned unchanged.  Otherwise the source XORs byte i of the input into byte
i % new_size of a fresh zero buffer; for new_size = 0 the expression
i % new_size divides by zero and the program panics, modelled as none. -/
def truncateHash (h : Hash) (newSize : Nat) : Option Hash :=
  if h.data.length ≤ newSize then some h
  else if newSize = 0 then none
  else
    some ⟨(List.range h.data.length).foldl
            (fun acc i => acc.set (i % newSize) (Nat.xor (acc.getD (i % newSize) 0) (h.data.getD i 0)))
            (List.replicate newSize 0),
          h.ty⟩

/-! ## store paths (src/path.rs) -/

inductive StorePathError where
  | notInStore (p : String)
  | invalidFilepath (p : String)
  | invalidStorePathName (s : String)
  | wrongHashLen (n : Nat)
  /-- Models a panic reached inside path construction. -/
  | panicked
deriving DecidableEq, Repr

/-- Name::from_str character set. -/
def validNameChar (c : Char) : Bool :=
  c.isAlpha || c.isDigit || c = '+' || c = '-' || c = '.' || c = '_' || c = '?' || c = '='

/-- Tests whether the first character is a dot (starts_with on a char). -/
def startsWithDot (s : String) : Bool :=
  match s.toList with
  | c :: _ => c = '.'
  | [] => false

/-- Name::from_str. -/
def parseName (s : String) : Except StorePathError String :=
  if s.isEmpty then .error (.invalidStorePathName "")
  else if 211 < s.utf8ByteSize then .error (.invalidStorePathName s)
  else if startsWithDot s ∨ ¬(s.toList.all validNameChar) then .error (.invalidStorePathName s)
  else .ok s

/-- StorePath: 20 hash bytes and a validated name. -/
structure StorePath where
  hash : List Nat
  name : String
deriving DecidableEq, Repr

/-- Path::from_parts: requires exactly 20 bytes, validates the name. -/
def fromParts (bytes : List Nat) (name : String) : Except StorePathError StorePath :=
  if bytes.length = 20 then
    match parseName name with
    | .ok n => .ok ⟨bytes, n⟩
    | .error e => .error e
  else .error (.wrongHashLen bytes.length)

/-- Display for Path: base32 of the hash, a dash, the name. -/
def printStorePath (p : StorePath) : String :=
  stringOfBytes (Base32.encode p.hash) ++ "-" ++ p.name

/-! ## store-path algebra (src/store.rs) -/

/-- Store::make_store_path: hash the ident string
purpose:base16(hash):storeDir:name with SHA-256, truncate to 20 bytes,
build the store path from the truncated bytes and the name. -/
def makeStorePath (storeDir purpose : String) (h : Hash) (name : String) :
    Except StorePathError StorePath :=
  let ident := purpose ++ ":" ++ hashEncode h .base16 ++ ":" ++ storeDir ++ ":" ++ name
  match truncateHash (sha256Hash (asciiBytes ident)) 20 with
  | some h20 => fromParts h20.data name
  | none => .error .panicked

/-! ## archive serializer (src/archive/mod.rs) -/

/-- A model filesystem node.  Directory entries are listed in the order the
readdir enumeration yields them. -/
inductive FsNode where
  | regular (executable : Bool) (contents : List Nat)
  | directory (entries : List (String × FsNode))
  | symlink (target : String)
  | special

/-- ArchiveSink::write_usize: eight little-endian bytes (each an as-u8
truncation of a shifted value). -/
def writeUsize (n : Nat) : List Nat :=
  [n % 256, (n >>> 8) % 256, (n >>> 16) % 256, (n >>> 24) % 256,
   (n >>> 32) % 256, (n >>> 40) % 256, (n >>> 48) % 256, (n >>> 56) % 256]

/-- ArchiveSink::pad: zero bytes up to the next multiple of eight. -/
def padOf (len : Nat) : List Nat :=
  if len % 8 > 0 then List.replicate (8 - len % 8) 0 else []

/-- ArchiveSink::write_str on raw bytes. -/
def writeStrB (s : List Nat) : List Nat := writeUsize s.length ++ s ++ padOf s.length

/-- ArchiveSink::write_str on an ASCII string. -/
def writeStr (s : String) : List Nat := writeStrB (asciiBytes s)

/-- One work item of dump_path: either serialize a node at a path, or run the
directory-entry while loop.  The loop mirrors the source exactly: its
condition re-runs fs::read_dir(path) and takes that fresh iterator's first
entry, so the entry list it inspects never shrinks. -/
inductive DumpJob where
  | node (path : String) (n : FsNode)
  | dirLoop (path : String) (entries : List (String × FsNode))

/-- The stat view of a node: tokio fs::metadata (src/archive/mod.rs line
118) follows symbolic links, so stat-ing a symlink reports its fully
resolved target's node, and every subsequent operation on the link path
(reading contents, listing entries) acts on that target.  resolve gives,
for a link path, the node its full resolution reaches; none models a
dangling link, where fs::metadata returns an io error. -/
def statView (resolve : String → Option FsNode) (path : String) : FsNode → Option FsNode
  | .symlink _ => resolve path
  | n => some n

/-- dump_path (src/archive/mod.rs).  The dispatch runs on the stat view of
the node, because fs::metadata follows symlinks; the is_symlink branch of
the source (mod.rs lines 154-160, serializing canon path) is therefore
unreachable from a followed stat and is kept here only to mirror the source
text.  canon models fs::canonicalize; filt is the PathFilter.  The outer
none is fuel exhaustion (the computation still running); some none models a
fatal error (unsupported type, or the io error on a dangling link); some
(some bytes) is the emitted stream. -/
def dumpGo (canon : String → String) (resolve : String → Option FsNode)
    (filt : String → Bool) : Nat → DumpJob → Option (Option (List Nat))
  | 0, _ => none
  | fuel + 1, .node path n =>
    match statView resolve path n with
    | none => some none
    | some meta =>
      match meta with
      | .regular ex contents =>
        some (some (writeStr "(" ++ writeStr "type" ++ writeStr "regular" ++
          (if ex then writeStr "executable" ++ writeStr "" else []) ++
          writeStr "contents" ++ writeUsize contents.length ++ contents ++
          padOf contents.length ++ writeStr ")"))
      | .symlink _ =>
        some (some (writeStr "(" ++ writeStr "type" ++ writeStr "symlink" ++
          writeStr "target" ++ writeStr (canon path) ++ writeStr ")"))
      | .directory entries =>
        match dumpGo canon resolve filt fuel (.dirLoop path entries) with
        | none => none
        | some none => some none
        | some (some inner) =>
          some (some (writeStr "(" ++ writeStr "type" ++ writeStr "directory" ++
            inner ++ writeStr ")"))
      | .special => some none
  | fuel + 1, .dirLoop path entries =>
    match entries.head? with
    | none => some (some [])
    | some (nm, child) =>
      let childPath := path ++ "/" ++ nm
      if filt childPath then
        match dumpGo canon resolve filt fuel (.node childPath child) with
        | none => none
        | some none => some none
        | some (some childBytes) =>
          match dumpGo canon resolve filt fuel (.dirLoop path entries) with
          | none => none
          | some none => some none
          | some (some rest) =>
            some (some (writeStr "entry" ++ writeStr "(" ++ writeStr "name" ++
              writeStr nm ++ writeStr "node" ++ childBytes ++ writeStr ")" ++ rest))
      else
        dumpGo canon resolve filt fuel (.dirLoop path entries)

/-- dump_path at a root node. -/
def dumpNode (canon : String → String) (resolve : String → Option FsNode)
    (filt : String → Bool) (fuel : Nat) (path : String) (n : FsNode) :
    Option (Option (List Nat)) :=
  dumpGo canon resolve filt fuel (.node path n)

/-! ## archive parser (src/archive/sink.rs) -/

inductive ParseError where
  | invalidNar
  | multipleTypeFields
  | unknownArchiveType
  | invalidFilename
  | executableMarker
  | expected (s : String)
  | unknownField
  | stringTooLong
  | nonzeroPadding
  /-- Models the io error surfaced when read_exact hits end of stream. -/
  | ioEof
  /-- Recursion-bound marker; never returned when the fuel is large enough. -/
  | outOfFuel
deriving DecidableEq, Repr

/-- Calls the parser makes against its ParseSink. -/
inductive SinkCall where
  | createFile (path : Option (List Nat))
  | createDirectory (path : Option (List Nat))
  | createSymlink (path : Option (List Nat)) (target : List Nat)
  | setExecutable
  | allocateContents (n : Nat)
  | receiveContents (bytes : List Nat)
deriving DecidableEq, Repr

/-- read_exact: take n bytes off the stream or fail like the io layer. -/
def readExact (n : Nat) (s : List Nat) : Except ParseError (List Nat × List Nat) :=
  if n ≤ s.length then .ok (s.take n, s.drop n) else .error .ioEof

/-- The little-endian accumulation in read_num. -/
def leVal8 : List Nat → Nat
  | [b0, b1, b2, b3, b4, b5, b6, b7] =>
    b0 ||| (b1 <<< 8) ||| (b2 <<< 16) ||| (b3 <<< 24) ||| (b4 <<< 32) |||
      (b5 <<< 40) ||| (b6 <<< 48) ||| (b7 <<< 56)
  | _ => 0

/-- read_num: eight bytes, little-endian. -/
def readNum (s : List Nat) : Except ParseError (Nat × List Nat) :=
  match readExact 8 s with
  | .ok (bs, rest) => .ok (leVal8 bs, rest)
  | .error e => .error e

/-- read_padding: after a payload of len bytes with len % 8 > 0, consume the
8 - len % 8 pad bytes and require them all zero. -/
def readPadding (len : Nat) (s : List Nat) : Except ParseError (List Nat) :=
  if len % 8 > 0 then
    match readExact (8 - len % 8) s with
    | .ok (padBytes, rest) =>
      if padBytes.any (fun b => 0 < b) then .error .nonzeroPadding else .ok rest
    | .error e => .error e
  else .ok s

/-- read_bytes_len: length prefix bounded by max, payload, padding. -/
def readBytesLen (max : Nat) (s : List Nat) : Except ParseError (List Nat × List Nat) :=
  match readNum s with
  | .error e => .error e
  | .ok (len, s1) =>
    if max < len then .error .stringTooLong
    else
      match readExact len s1 with
      | .error e => .error e
      | .ok (bytes, s2) =>
        match readPadding len s2 with
        | .error e => .error e
        | .ok s3 => .ok (bytes, s3)

/-- read_bytes: read_bytes_len with the usize maximum. -/
def readBytes (s : List Nat) : Except ParseError (List Nat × List Nat) :=
  readBytesLen (2 ^ 64 - 1) s

/-- Node type seen in the type field. -/
inductive EntryType where
  | file | dir | symlink
deriving DecidableEq, Repr

/-- PathBuf::join of the optional parent path and an entry name. -/
def joinPath (path : Option (List Nat)) (name : List Nat) : List Nat :=
  match path with
  | none => name
  | some p => p ++ [47] ++ name

/-- One work item of the parse recursion: a node (expects an open tag), the
node field loop with its once-only type state, or the directory entry field
loop with its name state. -/
inductive ParseJob where
  | node (path : Option (List Nat))
  | fields (path : Option (List Nat)) (ty : Option EntryType)
  | entry (path : Option (List Nat)) (name : List Nat)

/-- The recursive parser of src/archive/sink.rs, returning the sink calls it
performs and the unconsumed rest of the stream.  Entry names are kept as raw
bytes (the source converts them with String::from_utf8; all names in this
development are ASCII). -/
def parseGo : Nat → ParseJob → List Nat → Except ParseError (List SinkCall × List Nat)
  | 0, _, _ => .error .outOfFuel
  | fuel + 1, .node path, s =>
    match readBytes s with
    | .error e => .error e
    | .ok (tag, s1) =>
      if tag = asciiBytes "(" then parseGo fuel (.fields path none) s1
      else .error .invalidNar
  | fuel + 1, .fields path ty, s =>
    match readBytes s with
    | .error e => .error e
    | .ok (tag, s1) =>
      if tag = asciiBytes ")" then .ok ([], s1)
      else if tag = asciiBytes "type" then
        if ty.isSome then .error .multipleTypeFields
        else
          match readBytes s1 with
          | .error e => .error e
          | .ok (tagged, s2) =>
            if tagged = asciiBytes "regular" then
              match parseGo fuel (.fields path (some .file)) s2 with
              | .error e => .error e
              | .ok (calls, rest) => .ok (.createFile path :: calls, rest)
            else if tagged = asciiBytes "directory" then
              match parseGo fuel (.fields path (some .dir)) s2 with
              | .error e => .error e
              | .ok (calls, rest) => .ok (.createDirectory path :: calls, rest)
            else if tagged = asciiBytes "symlink" then
              parseGo fuel (.fields path (some .symlink)) s2
            else .error .unknownArchiveType
      else if tag = asciiBytes "contents" ∧ ty = some .file then
        match readNum s1 with
        | .error e => .error e
        | .ok (filesize, s2) =>
          let taken := s2.take filesize
          let s3 := s2.drop filesize
          match readPadding filesize s3 with
          | .error e => .error e
          | .ok s4 =>
            match parseGo fuel (.fields path ty) s4 with
            | .error e => .error e
            | .ok (calls, rest) =>
              .ok (.allocateContents filesize :: .receiveContents taken :: calls, rest)
      else if tag = asciiBytes "executable" ∧ ty = some .file then
        match readBytes s1 with
        | .error e => .error e
        | .ok (marker, s2) =>
          if marker = [] then
            match parseGo fuel (.fields path ty) s2 with
            | .error e => .error e
            | .ok (calls, rest) => .ok (.setExecutable :: calls, rest)
          else .error .executableMarker
      else if tag = asciiBytes "entry" ∧ ty = some .dir then
        match readBytes s1 with
        | .error e => .error e
        | .ok (open1, s2) =>
          if open1 = asciiBytes "(" then
            match parseGo fuel (.entry path []) s2 with
            | .error e => .error e
            | .ok (calls, s3) =>
              match parseGo fuel (.fields path ty) s3 with
              | .error e => .error e
              | .ok (calls2, rest) => .ok (calls ++ calls2, rest)
          else .error (.expected "open tag")
      else if tag = asciiBytes "target" ∧ ty = some .symlink then
        match readBytes s1 with
        | .error e => .error e
        | .ok (target, s2) =>
          match parseGo fuel (.fields path ty) s2 with
          | .error e => .error e
          | .ok (calls, rest) => .ok (.createSymlink path target :: calls, rest)
      else .error .unknownField
  | fuel + 1, .entry path name, s =>
    match readBytes s with
    | .error e => .error e
    | .ok (tag, s1) =>
      if tag = asciiBytes ")" then .ok ([], s1)
      else if tag = asciiBytes "name" then
        match readBytes s1 with
        | .error e => .error e
        | .ok (nm, s2) =>
          if nm = [] ∨ nm = asciiBytes "." ∨ nm = asciiBytes ".." ∨
              nm.any (fun b => b = 47 ∨ b = 0) then .error .invalidFilename
          else parseGo fuel (.entry path nm) s2
      else if tag = asciiBytes "node" then
        if name = [] then .error (.expected "entry name")
        else
          match parseGo fuel (.node (some (joinPath path name))) s1 with
          | .error e => .error e
          | .ok (calls, s2) =>
            match parseGo fuel (.entry path name) s2 with
            | .error e => .error e
            | .ok (calls2, rest) => .ok (calls ++ calls2, rest)
      else .error .unknownField

/-- parse_dump: check the magic tag, then parse the root node. -/
def parseDump (fuel : Nat) (s : List Nat) : Except ParseError (List SinkCall × List Nat) :=
  match readBytesLen 13 s with
  | .error e => .error e
  | .ok (vers, s1) =>
    if vers = asciiBytes "nix-archive-1" then parseGo fuel (.node none) s1
    else .error .invalidNar

/-! ## local store add_nar (src/store/local/mod.rs) -/

inductive AddNarError where
  /-- restore_into failed: the stream did not parse as a NAR, or the io
  layer errored; the ? on restore_into (src/store/local/mod.rs line 129)
  propagates this before any hash or size check runs. -/
  | restoreFailed (e : ParseError)
  | narHashMismatch
  | narSizeMismatch
deriving DecidableEq, Repr

/-- The slice of ValidPathInfo that add_nar_to_store consults. -/
structure NarInfo where
  narHash : Hash
  narSize : Option Nat
deriving DecidableEq, Repr

/-- Contents at the real store location of one path. -/
inductive FileState where
  /-- Nothing on disk. -/
  | absent
  /-- The tree the restore sink materialized from the consumed NAR bytes. -/
  | restored (consumed : List Nat)
  /-- restore_into aborted midway: whatever the sink had materialized before
  the failure may remain on disk; this model does not resolve its shape. -/
  | aborted
deriving DecidableEq, Repr

/-- Store state projected onto one store path: whether a ValidPaths row
exists for it, and what is materialized at its real location. -/
structure StoreState where
  valid : Bool
  file : FileState
deriving DecidableEq, Repr

/-- add_nar_to_store, sequentialized: skip when the path is valid; otherwise
lock, re-check, remove stale contents, and drive the archive parser over
the stream (restore_into) while tee-ing the polled bytes through a SHA-256
context.  A parse or io failure propagates immediately, before any hash or
size check.  On success the digest and byte count cover the consumed prefix
of the stream (the tee hashes exactly the chunks the parser pulled; the
theorems below only exercise fully consumed streams, where chunk
granularity cannot matter); they are compared against info.nar_hash and
info.nar_size.unwrap_or_default(), and only then is the row inserted.  fuel
bounds the parser recursion depth as in parseDump. -/
def addNar (fuel : Nat) (info : NarInfo) (source : List Nat) (st : StoreState) :
    Except AddNarError Unit × StoreState :=
  if st.valid then (.ok (), st)
  else
    if st.valid then (.ok (), st)
    else
      match parseDump fuel source with
      | .error e => (.error (.restoreFailed e), ⟨st.valid, .aborted⟩)
      | .ok (_, rest) =>
        let consumed := source.take (source.length - rest.length)
        let restored : StoreState := ⟨st.valid, .restored consumed⟩
        let hash := sha256Hash consumed
        let size := consumed.length
        if hash ≠ info.narHash then (.error .narHashMismatch, restored)
        else if size ≠ info.narSize.getD 0 then (.error .narSizeMismatch, restored)
        else (.ok (), ⟨true, restored.file⟩)

/-! ## path locks (src/store/local/lock.rs) -/

/-- Index just past the last dot of a file name, if any. -/
def lastDotIdx (f : List Char) : Option Nat :=
  match f.reverse.findIdx? (· = '.') with
  | some j => some (f.length - 1 - j)
  | none => none

/-- Path::extension on a file name: the part after the final dot, none when
there is no dot or the only dot is the leading character. -/
def fileExtension (f : List Char) : Option (List Char) :=
  match lastDotIdx f with
  | none => none
  | some 0 => none
  | some i => some (f.drop (i + 1))

/-- Path::file_stem: the file name with its extension (and the final dot)
removed. -/
def fileStem (f : List Char) : List Char :=
  match lastDotIdx f with
  | none => f
  | some 0 => f
  | some i => f.take i

/-- Path::with_extension on a file name: stem, then a dot and the new
extension when it is nonempty. -/
def withExtension (f e : List Char) : List Char :=
  if e = [] then fileStem f else fileStem f ++ '.' :: e

/-- The lock-file name computed in PathLocks::lock: when the path has an
extension e, with_extension(e + ".lock"); otherwise with_extension(".lock").
-/
def lockFileName (f : List Char) : List Char :=
  match fileExtension f with
  | some e => withExtension f (e ++ ".lock".toList)
  | none => withExtension f ".lock".toList

/-! ## auxiliary definitions used by the theorems -/

/-- The concrete archive stream of one regular file with contents "abc"; the
last byte of the 5-byte padding region after the contents is the argument
(0 in the well-formed stream, 1 after flipping its lowest bit). -/
def exampleNar (padByte : Nat) : List Nat :=
  writeStr "nix-archive-1" ++ writeStr "(" ++ writeStr "type" ++ writeStr "regular" ++
    writeStr "contents" ++ writeUsize 3 ++ asciiBytes "abc" ++ [0, 0, 0, 0, padByte] ++
    writeStr ")"

/-- XOR of a list of bytes. -/
def xorFold (l : List Nat) : Nat := l.foldr Nat.xor 0

/-- The XOR-fold truncation as the spec states it: output byte j is the XOR
of every input byte whose position is congruent to j mod k. -/
def specXorFold (bytes : List Nat) (k : Nat) : List Nat :=
  (List.range k).map (fun j =>
    xorFold (((List.range bytes.length).filter (fun i => i % k = j)).map
      (fun i => bytes.getD i 0)))

/-- Little-endian value of a byte string. -/
def byteVal (l : List Nat) : Nat := l.foldr (fun b acc => b + 256 * acc) 0

/-- Little-endian value of a 5-bit digit string. -/
def digitVal (l : List Nat) : Nat := l.foldr (fun d acc => d + 32 * acc) 0

end RsStore

namespace RsStore

/-! ## general bit-arithmetic helpers -/

theorem land_two_pow_sub_one (a k : Nat) : Nat.land a (2 ^ k - 1) = a % 2 ^ k := by
  apply Nat.eq_of_testBit_eq
  intro i
  change (a &&& (2 ^ k - 1)).testBit i = (a % 2 ^ k).testBit i
  rw [Nat.testBit_land, Nat.testBit_two_pow_sub_one, Nat.testBit_mod_two_pow]
  rw [Bool.and_comm]

theorem lor_shiftLeft_eq_add (a b k : Nat) (h : a < 2 ^ k) :
    a ||| (b <<< k) = 2 ^ k * b + a := by
  apply Nat.eq_of_testBit_eq
  intro i
  rw [Nat.testBit_lor, Nat.testBit_shiftLeft, Nat.testBit_mul_pow_two_add b h]
  by_cases hik : i < k
  · have : ¬ (i ≥ k) := by omega
    simp [hik, this]
  · have hk : a < 2 ^ i := lt_of_lt_of_le h (Nat.pow_le_pow_right (by omega) (by omega))
    have : a.testBit i = false := Nat.testBit_lt_two_pow hk
    simp [hik, this, ge_iff_le, Nat.le_of_not_lt hik]

theorem land_31_eq (a : Nat) : Nat.land a 31 = a % 32 := by
  have := land_two_pow_sub_one a 5
  norm_num at this
  exact this

/-! ## claim C10 -/

/-- Claim C10: Hash::truncate is total only for a positive target size.  For
every hash whose length is at least 16, truncating to 0 evaluates i % 0 and
panics (modelled as none), while every positive target size succeeds: the
XOR-fold truncation carries the unstated precondition that the target size
is at least 1. -/
theorem claim_C10 (h : Hash) (hlen : 16 ≤ h.data.length) :
    truncateHash h 0 = none ∧ ∀ k, 1 ≤ k → (truncateHash h k).isSome := by
  constructor
  · have h0 : ¬ (h.data.length ≤ 0) := by omega
    simp [truncateHash, h0]
  · intro k hk
    have hk0 : ¬ (k = 0) := by omega
    by_cases hc : h.data.length ≤ k <;> simp [truncateHash, hc, hk0]

/-- Witness for C10 at a concrete 32-byte hash. -/
theorem claim_C10_witness :
    16 ≤ (Hash.mk (List.replicate 32 0) .sha256).data.length ∧
      (truncateHash ⟨List.replicate 32 0, .sha256⟩ 0 = none ∧
        ∀ k, 1 ≤ k → (truncateHash ⟨List.replicate 32 0, .sha256⟩ k).isSome) :=
  ⟨by decide, claim_C10 ⟨List.replicate 32 0, .sha256⟩ (by decide)⟩

/-! ## claim C6 -/

/-- Claim C6 (code bug): decoding the typed encoding of a hash does not
return the hash for every encoding.  For the SRI and base64 encodings the
decoder reaches the todo!() panic in Hash::decode_with_type (modelled as the
todoUnimplemented error) instead of returning the hash; shown here at a
concrete 32-byte SHA-256 hash.  The base16 and base32 encodings do round
trip on the same hash. -/
theorem claim_C6 :
    hashDecode (hashEncodeWithType ⟨List.replicate 32 0, .sha256⟩ .sri) =
        .error .todoUnimplemented ∧
      hashDecode (hashEncodeWithType ⟨List.replicate 32 0, .sha256⟩ .base64) =
        .error .todoUnimplemented ∧
      hashDecode (hashEncodeWithType ⟨List.replicate 32 0, .sha256⟩ .base16) =
        .ok ⟨List.replicate 32 0, .sha256⟩ ∧
      hashDecode (hashEncodeWithType ⟨List.replicate 32 0, .sha256⟩ .base32) =
        .ok ⟨List.replicate 32 0, .sha256⟩ := by
  refine ⟨by decide, by decide, by decide, by decide⟩

/-! ## claim C9 -/

/-- Claim C9 (code bug): PathLocks::lock does not always lock P ++ ".lock".
For a store path whose file name has no dot, Path::with_extension(".lock")
produces P ++ "..lock" (a double dot); when the file name has an extension
the intended P ++ ".lock" is produced. -/
theorem claim_C9 :
    lockFileName "q3d9z-hello".toList = "q3d9z-hello..lock".toList ∧
      lockFileName "q3d9z-hello".toList ≠ ("q3d9z-hello.lock").toList ∧
      lockFileName "5sx-foo.txt".toList = ("5sx-foo.txt.lock").toList := by
  refine ⟨by decide, by decide, by decide⟩

/-! ## claim C5 -/

/-- Claim C5 (code bug): dump_path never records a symlink's stored target
string.  fs::metadata follows the link, so the dispatch sees the resolved
target's node and serializes that: with /d/b a link whose stored target is
"a" and whose full resolution reaches the regular file "hi", the output is
that regular node, not a symlink record (neither with the stored target "a"
nor with a canonicalized "/d/a"); and on a dangling link fs::metadata
errors, a fatal failure rather than a symlink record. -/
theorem claim_C5 :
    dumpNode (fun p => p)
        (fun p => if p = "/d/b" then some (.regular false [104, 105]) else none)
        (fun _ => true) 2 "/d/b" (.symlink "a") =
      some (some (writeStr "(" ++ writeStr "type" ++ writeStr "regular" ++
        writeStr "contents" ++ writeUsize 2 ++ [104, 105] ++ padOf 2 ++ writeStr ")")) ∧
      dumpNode (fun p => p)
        (fun p => if p = "/d/b" then some (.regular false [104, 105]) else none)
        (fun _ => true) 2 "/d/b" (.symlink "a") ≠
      some (some (writeStr "(" ++ writeStr "type" ++ writeStr "symlink" ++
        writeStr "target" ++ writeStr "a" ++ writeStr ")")) ∧
      dumpNode (fun p => p)
        (fun p => if p = "/d/b" then some (.regular false [104, 105]) else none)
        (fun _ => true) 2 "/d/b" (.symlink "a") ≠
      some (some (writeStr "(" ++ writeStr "type" ++ writeStr "symlink" ++
        writeStr "target" ++ writeStr "/d/a" ++ writeStr ")")) ∧
      dumpNode (fun p => p) (fun _ => none) (fun _ => true) 2 "/d/b" (.symlink "a") =
        some none := by
  refine ⟨by decide, by decide, by decide, by decide⟩

/-! ## claims C2 and C3: add_nar mismatch behaviour -/

/-- Counterexample to claim C3 as stated: with nar_size absent and a
well-formed one-file NAR stream whose digest matches, add_nar still fails
with NarSizeMismatch, because the source compares the byte count against
info.nar_size.unwrap_or_default() = 0; the claim said no size check is
performed when nar_size is absent.  The last conjunct records that the
stream really is a NAR restore_into consumes in full. -/
theorem claim_C3_cex :
    (addNar 10 ⟨sha256Hash (exampleNar 0), none⟩ (exampleNar 0) ⟨false, .absent⟩).1 =
        .error .narSizeMismatch ∧
      (NarInfo.mk (sha256Hash (exampleNar 0)) none).narSize = none ∧
      sha256Hash (exampleNar 0) = (NarInfo.mk (sha256Hash (exampleNar 0)) none).narHash ∧
      parseDump 10 (exampleNar 0) =
        .ok ([.createFile none, .allocateContents 3, .receiveContents (asciiBytes "abc")],
          []) := by
  refine ⟨by decide, rfl, rfl, by decide⟩

/-- On a not-yet-valid path and a fully consumed parse, add_nar reduces to
the hash check, then the size check, then the insert, over the whole
stream. -/
theorem addNar_parsed (fuel : Nat) (info : NarInfo) (source : List Nat) (st : StoreState)
    (calls : List SinkCall) (hv : st.valid = false)
    (hp : parseDump fuel source = .ok (calls, [])) :
    addNar fuel info source st =
      (if sha256Hash source ≠ info.narHash then
        (.error .narHashMismatch, ⟨st.valid, .restored source⟩)
      else if source.length ≠ info.narSize.getD 0 then
        (.error .narSizeMismatch, ⟨st.valid, .restored source⟩)
      else (.ok (), ⟨true, .restored source⟩)) := by
  simp [addNar, hv, hp, List.take_length]

/-- Claim C3 as amended: for a path not yet valid and a stream that
restore_into fully consumes as a well-formed NAR, add_nar fails with
NarHashMismatch exactly when the SHA-256 digest of the stream differs from
info.nar_hash, and fails with NarSizeMismatch exactly when the digest
matches but the byte count differs from info.nar_size.unwrap_or_default();
in particular an absent nar_size is treated as 0, so the size check is not
skipped.  (When the stream fails to parse, add_nar instead propagates the
restore error before either check runs.) -/
theorem claim_C3 (fuel : Nat) (info : NarInfo) (source : List Nat) (st : StoreState)
    (calls : List SinkCall) (hv : st.valid = false)
    (hp : parseDump fuel source = .ok (calls, [])) :
    ((addNar fuel info source st).1 = .error .narHashMismatch ↔
        sha256Hash source ≠ info.narHash) ∧
      ((addNar fuel info source st).1 = .error .narSizeMismatch ↔
        (sha256Hash source = info.narHash ∧ source.length ≠ info.narSize.getD 0)) := by
  rw [addNar_parsed fuel info source st calls hv hp]
  by_cases h1 : sha256Hash source = info.narHash <;>
    by_cases h2 : source.length = info.narSize.getD 0 <;>
      simp [h1, h2]

/-- Witness for the amended C3 at a concrete fully parsed input. -/
theorem claim_C3_witness :
    (StoreState.mk false .absent).valid = false ∧
      parseDump 10 (exampleNar 0) =
        .ok ([.createFile none, .allocateContents 3, .receiveContents (asciiBytes "abc")],
          []) ∧
      (((addNar 10 ⟨sha256Hash (exampleNar 0), some 5⟩ (exampleNar 0) ⟨false, .absent⟩).1 =
          .error .narHashMismatch ↔
            sha256Hash (exampleNar 0) ≠
              (NarInfo.mk (sha256Hash (exampleNar 0)) (some 5)).narHash) ∧
        ((addNar 10 ⟨sha256Hash (exampleNar 0), some 5⟩ (exampleNar 0) ⟨false, .absent⟩).1 =
          .error .narSizeMismatch ↔
            (sha256Hash (exampleNar 0) =
                (NarInfo.mk (sha256Hash (exampleNar 0)) (some 5)).narHash ∧
              (exampleNar 0).length ≠ ((some 5 : Option Nat)).getD 0))) :=
  ⟨rfl, by decide,
    claim_C3 10 ⟨sha256Hash (exampleNar 0), some 5⟩ (exampleNar 0) ⟨false, .absent⟩
      [.createFile none, .allocateContents 3, .receiveContents (asciiBytes "abc")]
      rfl (by decide)⟩

/-- Counterexample to claim C2 as stated: a failing add_nar leaves the
restored tree on disk.  The stream is a well-formed one-file NAR that
restore_into consumes in full, but the expected hash is the digest of a
different byte string, so add_nar fails with NarHashMismatch after the tree
has been materialized; the final state still holds the restored file,
contradicting the claimed atomicity ("no file remains"). -/
theorem claim_C2_cex :
    (addNar 10 ⟨sha256Hash [0], none⟩ (exampleNar 0) ⟨false, .absent⟩).1 =
        .error .narHashMismatch ∧
      (addNar 10 ⟨sha256Hash [0], none⟩ (exampleNar 0) ⟨false, .absent⟩).2.file =
        .restored (exampleNar 0) ∧
      (addNar 10 ⟨sha256Hash [0], none⟩ (exampleNar 0) ⟨false, .absent⟩).2.file ≠
        .absent := by
  refine ⟨by decide, by decide, by decide⟩

/-- Claim C2 as amended: when add_nar fails on a hash or size mismatch for a
path not yet valid, after restore_into fully consumed the stream as a
well-formed NAR, no ValidPaths row appears, but the restored tree does
remain at the real store location (the source has no cleanup on this path;
a later attempt or GC removes it). -/
theorem claim_C2 (fuel : Nat) (info : NarInfo) (source : List Nat) (st : StoreState)
    (calls : List SinkCall) (hv : st.valid = false)
    (hp : parseDump fuel source = .ok (calls, [])) (e : AddNarError)
    (he : (addNar fuel info source st).1 = .error e) :
    (addNar fuel info source st).2.valid = false ∧
      (addNar fuel info source st).2.file = .restored source := by
  rw [addNar_parsed fuel info source st calls hv hp] at he ⊢
  by_cases h1 : sha256Hash source = info.narHash <;>
    by_cases h2 : source.length = info.narSize.getD 0 <;>
      simp [h1, h2, hv] at he ⊢

/-- Witness for the amended C2 at a concrete mismatching input. -/
theorem claim_C2_witness :
    (StoreState.mk false .absent).valid = false ∧
      parseDump 10 (exampleNar 0) =
        .ok ([.createFile none, .allocateContents 3, .receiveContents (asciiBytes "abc")],
          []) ∧
      (addNar 10 ⟨sha256Hash [0], none⟩ (exampleNar 0) ⟨false, .absent⟩).1 =
        .error .narHashMismatch ∧
      ((addNar 10 ⟨sha256Hash [0], none⟩ (exampleNar 0) ⟨false, .absent⟩).2.valid = false ∧
        (addNar 10 ⟨sha256Hash [0], none⟩ (exampleNar 0) ⟨false, .absent⟩).2.file =
          .restored (exampleNar 0)) :=
  ⟨rfl, by decide, by decide,
    claim_C2 10 ⟨sha256Hash [0], none⟩ (exampleNar 0) ⟨false, .absent⟩
      [.createFile none, .allocateContents 3, .receiveContents (asciiBytes "abc")]
      rfl (by decide) .narHashMismatch (by decide)⟩


end RsStore

namespace RsStore

/-! ## claim C4 -/

/-- Serializing a regular file either exhausts the fuel or succeeds; it never
returns the error value. -/
theorem dumpRegular_not_fatal (r : String → Option FsNode) (n : Nat) (path : String)
    (ex : Bool) (cont : List Nat) :
    dumpGo (fun p => p) r (fun _ => true) n (.node path (.regular ex cont)) = none ∨
      ∃ bs, dumpGo (fun p => p) r (fun _ => true) n (.node path (.regular ex cont)) =
        some (some bs) := by
  cases n with
  | zero => left; rfl
  | succ m =>
    right
    exact ⟨writeStr "(" ++ writeStr "type" ++ writeStr "regular" ++
      (if ex then writeStr "executable" ++ writeStr "" else []) ++
      writeStr "contents" ++ writeUsize cont.length ++ cont ++
      padOf cont.length ++ writeStr ")", rfl⟩

/-- One unfolding step of the directory entry while loop. -/
theorem dirLoop_step (c : String → String) (r : String → Option FsNode)
    (f : String → Bool) (n : Nat) (path nm : String)
    (child : FsNode) (tl : List (String × FsNode)) :
    dumpGo c r f (n + 1) (.dirLoop path ((nm, child) :: tl)) =
      (if f (path ++ "/" ++ nm) then
        match dumpGo c r f n (.node (path ++ "/" ++ nm) child) with
        | none => none
        | some none => some none
        | some (some childBytes) =>
          match dumpGo c r f n (.dirLoop path ((nm, child) :: tl)) with
          | none => none
          | some none => some none
          | some (some rest) =>
            some (some (writeStr "entry" ++ writeStr "(" ++ writeStr "name" ++
              writeStr nm ++ writeStr "node" ++ childBytes ++ writeStr ")" ++ rest))
      else dumpGo c r f n (.dirLoop path ((nm, child) :: tl))) := rfl

/-- One unfolding step of dump_path on a directory node. -/
theorem dumpDir_step (c : String → String) (r : String → Option FsNode)
    (f : String → Bool) (n : Nat) (path : String)
    (es : List (String × FsNode)) :
    dumpGo c r f (n + 1) (.node path (.directory es)) =
      (match dumpGo c r f n (.dirLoop path es) with
      | none => none
      | some none => some none
      | some (some inner) =>
        some (some (writeStr "(" ++ writeStr "type" ++ writeStr "directory" ++
          inner ++ writeStr ")"))) := rfl

/-- The directory entry while loop of dump_path runs forever on a nonempty
directory: its condition re-runs fs::read_dir(path) and takes the first
entry of the fresh iterator every iteration, so for every fuel the loop is
still running. -/
theorem dumpDirLoop_diverges (fuel : Nat) :
    dumpGo (fun p => p) (fun _ => none) (fun _ => true) fuel
      (.dirLoop "/d" [("b", .regular false [104, 105]), ("a", .regular false [])]) =
      none := by
  induction fuel with
  | zero => rfl
  | succ n ih =>
    rw [dirLoop_step]
    rcases dumpRegular_not_fatal (fun _ => none) n ("/d" ++ "/" ++ "b") false [104, 105]
        with h | ⟨bs, h⟩ <;>
      rw [h, ih] <;> simp

/-- Claim C4: dump_path does not emit directory entries in sorted byte order
(and its output is not readdir-order invariant).  The directory loop
re-creates the readdir iterator in its condition every iteration, so on a
directory with entries enumerated as b then a it never terminates at all:
for every fuel bound the serialization is still running (none), rather than
producing the sorted byte stream the claim describes. -/
theorem claim_C4 (fuel : Nat) :
    dumpNode (fun p => p) (fun _ => none) (fun _ => true) fuel "/d"
      (.directory [("b", .regular false [104, 105]), ("a", .regular false [])]) =
      none := by
  cases fuel with
  | zero => rfl
  | succ n =>
    show dumpGo (fun p => p) (fun _ => none) (fun _ => true) (n + 1)
      (.node "/d" (.directory [("b", .regular false [104, 105]), ("a", .regular false [])])) =
      none
    rw [dumpDir_step, dumpDirLoop_diverges n]


end RsStore

namespace RsStore

/-! ## claim C8 -/

theorem readExact_append (a t : List Nat) : readExact a.length (a ++ t) = .ok (a, t) := by
  unfold readExact
  rw [if_pos (by simp), List.take_left, List.drop_left]

theorem leVal8_writeUsize (n : Nat) (h : n < 2 ^ 64) : leVal8 (writeUsize n) = n := by
  simp only [leVal8, writeUsize, Nat.shiftRight_eq_div_pow]
  have p1 : (0:Nat) < 256 := by norm_num
  have b0 : n % 256 < 2 ^ 8 := Nat.mod_lt _ p1
  rw [lor_shiftLeft_eq_add _ _ 8 b0]
  have b1 : 2 ^ 8 * (n / 2 ^ 8 % 256) + n % 256 < 2 ^ 16 := by
    have := Nat.mod_lt (n / 2 ^ 8) p1
    omega
  rw [lor_shiftLeft_eq_add _ _ 16 b1]
  have b2 : 2 ^ 16 * (n / 2 ^ 16 % 256) + (2 ^ 8 * (n / 2 ^ 8 % 256) + n % 256) < 2 ^ 24 := by
    have := Nat.mod_lt (n / 2 ^ 16) p1
    omega
  rw [lor_shiftLeft_eq_add _ _ 24 b2]
  have b3 : 2 ^ 24 * (n / 2 ^ 24 % 256) +
      (2 ^ 16 * (n / 2 ^ 16 % 256) + (2 ^ 8 * (n / 2 ^ 8 % 256) + n % 256)) < 2 ^ 32 := by
    have := Nat.mod_lt (n / 2 ^ 24) p1
    omega
  rw [lor_shiftLeft_eq_add _ _ 32 b3]
  have b4 : 2 ^ 32 * (n / 2 ^ 32 % 256) + (2 ^ 24 * (n / 2 ^ 24 % 256) +
      (2 ^ 16 * (n / 2 ^ 16 % 256) + (2 ^ 8 * (n / 2 ^ 8 % 256) + n % 256))) < 2 ^ 40 := by
    have := Nat.mod_lt (n / 2 ^ 32) p1
    omega
  rw [lor_shiftLeft_eq_add _ _ 40 b4]
  have b5 : 2 ^ 40 * (n / 2 ^ 40 % 256) + (2 ^ 32 * (n / 2 ^ 32 % 256) +
      (2 ^ 24 * (n / 2 ^ 24 % 256) + (2 ^ 16 * (n / 2 ^ 16 % 256) +
      (2 ^ 8 * (n / 2 ^ 8 % 256) + n % 256)))) < 2 ^ 48 := by
    have := Nat.mod_lt (n / 2 ^ 40) p1
    omega
  rw [lor_shiftLeft_eq_add _ _ 48 b5]
  have b6 : 2 ^ 48 * (n / 2 ^ 48 % 256) + (2 ^ 40 * (n / 2 ^ 40 % 256) +
      (2 ^ 32 * (n / 2 ^ 32 % 256) + (2 ^ 24 * (n / 2 ^ 24 % 256) +
      (2 ^ 16 * (n / 2 ^ 16 % 256) + (2 ^ 8 * (n / 2 ^ 8 % 256) + n % 256))))) < 2 ^ 56 := by
    have := Nat.mod_lt (n / 2 ^ 48) p1
    omega
  rw [lor_shiftLeft_eq_add _ _ 56 b6]
  omega

theorem readNum_writeUsize (n : Nat) (t : List Nat) (h : n < 2 ^ 64) :
    readNum (writeUsize n ++ t) = .ok (n, t) := by
  have h8 : readExact 8 (writeUsize n ++ t) = .ok (writeUsize n, t) := by
    have hw : (writeUsize n).length = 8 := rfl
    conv_lhs => rw [← hw]
    exact readExact_append _ _
  unfold readNum
  rw [h8]
  dsimp only
  rw [leVal8_writeUsize n h]

theorem readPadding_nonzero (len : Nat) (padBytes rest : List Nat) (hmod : len % 8 ≠ 0)
    (hlen : padBytes.length = 8 - len % 8) (hx : ∃ b ∈ padBytes, b ≠ 0) :
    readPadding len (padBytes ++ rest) = .error .nonzeroPadding := by
  unfold readPadding
  rw [if_pos (by omega), ← hlen, readExact_append]
  have ha : padBytes.any (fun b => decide (0 < b)) = true := by
    rw [List.any_eq_true]
    obtain ⟨b, hb, hb0⟩ := hx
    exact ⟨b, hb, by simpa using Nat.pos_of_ne_zero hb0⟩
  simp [ha]


/-- Claim C8: every padded read rejects a padding region containing a
nonzero byte with NonzeroPadding.  First, universally: whenever
read_bytes_len consumes a length-prefixed payload whose padding region holds
any nonzero byte, it fails with NonzeroPadding (every string, name, tag and
contents read of the parser goes through this path).  Second, end to end: a
well-formed one-file archive parses, and the same stream with one bit
flipped in the contents padding region fails with NonzeroPadding. -/
theorem claim_C8 :
    (∀ (max : Nat) (payload padBytes rest : List Nat),
        payload.length % 8 ≠ 0 → payload.length ≤ max → payload.length < 2 ^ 64 →
        padBytes.length = 8 - payload.length % 8 → (∃ b ∈ padBytes, b ≠ 0) →
        readBytesLen max (writeUsize payload.length ++ payload ++ padBytes ++ rest) =
          .error .nonzeroPadding) ∧
      parseDump 10 (exampleNar 0) =
        .ok ([.createFile none, .allocateContents 3, .receiveContents (asciiBytes "abc")], []) ∧
      parseDump 10 (exampleNar 1) = .error .nonzeroPadding := by
  refine ⟨?_, by decide, by decide⟩
  intro max payload padBytes rest hmod hmax hlt hlen hx
  unfold readBytesLen
  rw [List.append_assoc, List.append_assoc, readNum_writeUsize _ _ hlt]
  dsimp only
  rw [if_neg (by omega), readExact_append]
  dsimp only
  rw [readPadding_nonzero _ _ _ hmod hlen hx]

/-- Witness for C8's universal part at a concrete payload and padding. -/
theorem claim_C8_witness :
    (([97, 98, 99] : List Nat).length % 8 ≠ 0 ∧ ([97, 98, 99] : List Nat).length ≤ 100 ∧
        ([97, 98, 99] : List Nat).length < 2 ^ 64 ∧
        ([0, 0, 0, 0, 1] : List Nat).length = 8 - ([97, 98, 99] : List Nat).length % 8 ∧
        (∃ b ∈ ([0, 0, 0, 0, 1] : List Nat), b ≠ 0)) ∧
      readBytesLen 100
        (writeUsize ([97, 98, 99] : List Nat).length ++ [97, 98, 99] ++ [0, 0, 0, 0, 1] ++ []) =
        .error .nonzeroPadding :=
  ⟨⟨by decide, by decide, by decide, by decide, ⟨1, by decide, by decide⟩⟩,
    claim_C8.1 100 [97, 98, 99] [0, 0, 0, 0, 1] [] (by decide) (by decide) (by decide)
      (by decide) ⟨1, by decide, by decide⟩⟩

end RsStore

namespace RsStore

/-! ## claim C1 -/



theorem natXor_assoc (a b c : Nat) :
    Nat.xor (Nat.xor a b) c = Nat.xor a (Nat.xor b c) := Nat.xor_assoc a b c

theorem natXor_zero (a : Nat) : Nat.xor a 0 = a := Nat.xor_zero a

theorem natZero_xor (a : Nat) : Nat.xor 0 a = a := Nat.zero_xor a

theorem foldr_xor_init (l : List Nat) (c : Nat) :
    l.foldr Nat.xor c = Nat.xor (l.foldr Nat.xor 0) c := by
  induction l with
  | nil => exact (natZero_xor c).symm
  | cons a l ih => rw [List.foldr_cons, List.foldr_cons, ih, natXor_assoc]

theorem xorFold_append_single (l : List Nat) (x : Nat) :
    xorFold (l ++ [x]) = Nat.xor (xorFold l) x := by
  unfold xorFold
  rw [List.foldr_append, List.foldr_cons, List.foldr_nil, natXor_zero, foldr_xor_init]

/-- The write-into-a-zero-buffer XOR loop of Hash::truncate computes the
per-residue XOR formula of the spec. -/
theorem truncFold_spec (bytes : List Nat) (k : Nat) (hk : 0 < k) (m : Nat) :
    (List.range m).foldl
      (fun acc i => acc.set (i % k) (Nat.xor (acc.getD (i % k) 0) (bytes.getD i 0)))
      (List.replicate k 0) =
    (List.range k).map (fun j =>
      xorFold (((List.range m).filter (fun i => i % k = j)).map (fun i => bytes.getD i 0))) := by
  induction m with
  | zero => simp [xorFold]
  | succ m ih =>
    rw [List.range_succ, List.foldl_append, ih, List.foldl_cons, List.foldl_nil]
    apply List.ext_getElem?
    intro j
    have hmk : m % k < k := Nat.mod_lt _ hk
    by_cases hjk : j < k
    · have hmap : ∀ g : Nat → Nat, ((List.range k).map g)[j]? = some (g j) := by
        intro g
        rw [List.getElem?_map, List.getElem?_range hjk, Option.map_some']
      rw [List.getElem?_set, hmap, hmap]
      by_cases hmj : m % k = j
      · subst hmj
        rw [if_pos rfl, if_pos (by rw [List.length_map, List.length_range]; exact hmk)]
        rw [List.getD_eq_getElem?_getD, hmap, Option.getD_some]
        rw [List.filter_append, List.map_append]
        have hfil : List.filter (fun i => decide (i % k = m % k)) [m] = [m] := by
          simp [List.filter_cons]
        rw [hfil]
        simp only [List.map_cons, List.map_nil]
        rw [xorFold_append_single]
      · rw [if_neg hmj]
        rw [List.filter_append, List.map_append]
        have hfil : List.filter (fun i => decide (i % k = j)) [m] = [] := by
          simp [List.filter_cons, hmj]
        rw [hfil]
        simp only [List.map_nil, List.append_nil]
    · have hnone : ∀ g : Nat → Nat, ((List.range k).map g)[j]? = none := by
        intro g
        apply List.getElem?_eq_none
        rw [List.length_map, List.length_range]
        omega
      rw [List.getElem?_set, if_neg (by omega), hnone, hnone]

theorem round_length (st : List Nat) (kw : Nat × Nat) :
    (Sha256.round st kw).length = st.length := by
  unfold Sha256.round
  split <;> simp

theorem foldl_round_length (l : List (Nat × Nat)) (hs : List Nat) :
    (l.foldl Sha256.round hs).length = hs.length := by
  induction l generalizing hs with
  | nil => rfl
  | cons a l ih => rw [List.foldl_cons, ih, round_length]

theorem compress_length (hs block : List Nat) :
    (Sha256.compress hs block).length = hs.length := by
  unfold Sha256.compress
  rw [List.length_zipWith, foldl_round_length]
  omega

theorem foldl_compress_length (blocks : List (List Nat)) (hs : List Nat) :
    (blocks.foldl Sha256.compress hs).length = hs.length := by
  induction blocks generalizing hs with
  | nil => rfl
  | cons b bs ih => rw [List.foldl_cons, ih, compress_length]

theorem foldr_beBytes_length (l : List Nat) :
    (l.foldr (fun w acc => Sha256.beBytes 4 w ++ acc) []).length = 4 * l.length := by
  induction l with
  | nil => rfl
  | cons a l ih =>
    rw [List.foldr_cons, List.length_append, ih]
    simp [Sha256.beBytes]
    omega

/-- A SHA-256 digest is 32 bytes. -/
theorem sha256_length (msg : List Nat) : (Sha256.sha256 msg).length = 32 := by
  unfold Sha256.sha256
  rw [foldr_beBytes_length, foldl_compress_length]
  rfl

/-- Claim C1: for every store directory, purpose string, content hash and
valid name, make_store_path returns the StorePath whose 20-byte hash is the
XOR-fold truncation to 20 bytes of the SHA-256 of
purpose:base16(H):storeDir:name, paired with the name; and with store dir
/local/nix, purpose source, the SHA-256 of "Hello, world!" and name
foo.txt the result prints as 5c9a1g1jdqv2jk9k4nbxs9y2445l6jja-foo.txt. -/
theorem claim_C1 :
    (∀ (storeDir purpose name : String) (h : Hash),
        parseName name = .ok name →
        makeStorePath storeDir purpose h name =
          .ok ⟨specXorFold (Sha256.sha256 (asciiBytes
              (purpose ++ ":" ++ stringOfBytes (hexBytes h.data) ++ ":" ++ storeDir ++
                ":" ++ name))) 20,
            name⟩) ∧
      (makeStorePath "/local/nix" "source" (sha256Hash (asciiBytes "Hello, world!"))
          "foo.txt").map printStorePath =
        .ok "5c9a1g1jdqv2jk9k4nbxs9y2445l6jja-foo.txt" := by
  constructor
  · intro storeDir purpose name h hname
    unfold makeStorePath
    have hide : hashEncode h .base16 = stringOfBytes (hexBytes h.data) := rfl
    rw [hide]
    have hdata : (sha256Hash (asciiBytes (purpose ++ ":" ++ stringOfBytes (hexBytes h.data) ++
        ":" ++ storeDir ++ ":" ++ name))).data =
        Sha256.sha256 (asciiBytes (purpose ++ ":" ++ stringOfBytes (hexBytes h.data) ++
        ":" ++ storeDir ++ ":" ++ name)) := rfl
    have hlen : (sha256Hash (asciiBytes (purpose ++ ":" ++ stringOfBytes (hexBytes h.data) ++
        ":" ++ storeDir ++ ":" ++ name))).data.length = 32 := by
      rw [hdata, sha256_length]
    unfold truncateHash
    dsimp only
    rw [if_neg (by omega), if_neg (by omega)]
    dsimp only
    have hfold := truncFold_spec
      (sha256Hash (asciiBytes (purpose ++ ":" ++ stringOfBytes (hexBytes h.data) ++
        ":" ++ storeDir ++ ":" ++ name))).data 20 (by omega)
      (sha256Hash (asciiBytes (purpose ++ ":" ++ stringOfBytes (hexBytes h.data) ++
        ":" ++ storeDir ++ ":" ++ name))).data.length
    rw [hfold]
    unfold fromParts
    rw [if_pos (by rw [List.length_map, List.length_range]), hname]
    dsimp only
    rw [hdata]
    rfl
  · decide

/-- Witness for C1 at the concrete S3 inputs. -/
theorem claim_C1_witness :
    parseName "foo.txt" = .ok "foo.txt" ∧
      makeStorePath "/local/nix" "source" (sha256Hash (asciiBytes "Hello, world!"))
          "foo.txt" =
        .ok ⟨specXorFold (Sha256.sha256 (asciiBytes
            ("source" ++ ":" ++
              stringOfBytes (hexBytes (sha256Hash (asciiBytes "Hello, world!")).data) ++
              ":" ++ "/local/nix" ++ ":" ++ "foo.txt"))) 20,
          "foo.txt"⟩ :=
  ⟨by decide,
    claim_C1.1 "/local/nix" "source" "foo.txt" (sha256Hash (asciiBytes "Hello, world!"))
      (by decide)⟩

end RsStore

namespace RsStore

/-! ## claim C7 -/



theorem byteVal_lt (l : List Nat) (h : ∀ b ∈ l, b < 256) : byteVal l < 256 ^ l.length := by
  induction l with
  | nil => simp [byteVal]
  | cons a l ih =>
    have ha := h a (by simp)
    have hl := ih (fun b hb => h b (by simp [hb]))
    simp only [byteVal, List.foldr_cons, List.length_cons, pow_succ] at *
    nlinarith


theorem byteVal_inj (l₁ l₂ : List Nat) (hlen : l₁.length = l₂.length)
    (h₁ : ∀ b ∈ l₁, b < 256) (h₂ : ∀ b ∈ l₂, b < 256) (hv : byteVal l₁ = byteVal l₂) :
    l₁ = l₂ := by
  induction l₁ generalizing l₂ with
  | nil =>
    cases l₂ with
    | nil => rfl
    | cons b t => simp at hlen
  | cons a t ih =>
    cases l₂ with
    | nil => simp at hlen
    | cons b t₂ =>
      simp only [byteVal, List.foldr_cons] at hv
      have ha := h₁ a (by simp)
      have hb := h₂ b (by simp)
      have hab : a = b ∧
          t.foldr (fun b acc => b + 256 * acc) 0 = t₂.foldr (fun b acc => b + 256 * acc) 0 := by
        constructor <;> omega
      have := ih t₂ (by simpa using hlen) (fun x hx => h₁ x (by simp [hx]))
        (fun x hx => h₂ x (by simp [hx])) hab.2
      rw [hab.1, this]


theorem digitVal_append (xs ys : List Nat) :
    digitVal (xs ++ ys) = digitVal xs + 32 ^ xs.length * digitVal ys := by
  induction xs with
  | nil => simp [digitVal]
  | cons a t ih =>
    simp only [digitVal, List.foldr_cons, List.cons_append, List.length_cons, pow_succ] at *
    rw [ih]
    ring


theorem drainF_spec (fuel : Nat) : ∀ (nr bits : Nat), nr ≤ 5 * fuel + 5 → bits < 2 ^ nr →
    ∃ ds b2 n2, Base32.drainF fuel bits nr = (ds, b2, n2) ∧
      (∀ d ∈ ds, d < 32) ∧
      digitVal ds + 32 ^ ds.length * b2 = bits ∧
      n2 + 5 * ds.length = nr ∧
      b2 < 2 ^ n2 ∧ n2 ≤ 5 ∧
      (nr ≤ 5 → ds = []) ∧ (6 ≤ nr → 1 ≤ n2) := by
  induction fuel with
  | zero =>
    intro nr bits hfuel hlt
    exact ⟨[], bits, nr, rfl, by simp, by simp [digitVal], by simp, hlt, by omega,
      fun _ => rfl, fun h6 => by omega⟩
  | succ f ih =>
    intro nr bits hfuel hlt
    by_cases h5 : 5 < nr
    · have hdiv : bits >>> 5 < 2 ^ (nr - 5) := by
        rw [Nat.shiftRight_eq_div_pow]
        apply Nat.div_lt_of_lt_mul
        calc bits < 2 ^ nr := hlt
          _ = 2 ^ 5 * 2 ^ (nr - 5) := by rw [← pow_add]; congr 1; omega
      obtain ⟨ds, b2, n2, heq, hd32, hval, hcnt, hb2, hn2, hnil, hpos⟩ :=
        ih (nr - 5) (bits >>> 5) (by omega) hdiv
      refine ⟨Nat.land bits 31 :: ds, b2, n2, ?_, ?_, ?_, by simp; omega, hb2, hn2,
        fun hc => by omega, fun _ => ?_⟩
      · show Base32.drainF (f + 1) bits nr = _
        unfold Base32.drainF
        rw [if_pos h5, heq]
      · intro d hd
        rcases List.mem_cons.1 hd with h | h
        · rw [h, land_31_eq]; exact Nat.mod_lt _ (by omega)
        · exact hd32 d h
      · rw [land_31_eq]
        simp only [digitVal, List.foldr_cons, List.length_cons, pow_succ] at *
        have hsh : bits >>> 5 = bits / 32 := by
          rw [Nat.shiftRight_eq_div_pow]
        rw [hsh] at hval
        have hdecomp : bits % 32 + 32 * (bits / 32) = bits := Nat.mod_add_div bits 32
        nlinarith [hval, hdecomp]
      · by_cases h6 : 6 ≤ nr - 5
        · exact hpos h6
        · have := hnil (by omega)
          subst this
          simp at hcnt
          omega
    · refine ⟨[], bits, nr, ?_, by simp, by simp [digitVal], by simp, hlt, by omega,
        fun _ => rfl, fun h6 => by omega⟩
      show Base32.drainF (f + 1) bits nr = _
      unfold Base32.drainF
      rw [if_neg h5]


theorem encodeCore_spec : ∀ (bs : List Nat) (bits nr : Nat), (∀ b ∈ bs, b < 256) →
    bits < 2 ^ nr → nr ≤ 5 →
    (∀ d ∈ Base32.encodeCore bs bits nr, d < 32) ∧
    digitVal (Base32.encodeCore bs bits nr) = bits + 2 ^ nr * byteVal bs ∧
    (Base32.encodeCore bs bits nr).length = (nr + 8 * bs.length + 4) / 5 := by
  intro bs
  induction bs with
  | nil =>
    intro bits nr hb hlt hnr
    by_cases h0 : 0 < nr
    · have hcore : Base32.encodeCore [] bits nr = [Nat.land bits 31] := by
        unfold Base32.encodeCore
        rw [if_pos h0]
      have hbits : bits % 32 = bits := Nat.mod_eq_of_lt (by
        calc bits < 2 ^ nr := hlt
          _ ≤ 2 ^ 5 := Nat.pow_le_pow_right (by omega) hnr
          _ = 32 := by norm_num)
      rw [hcore, land_31_eq, hbits]
      refine ⟨?_, ?_, ?_⟩
      · intro d hd
        have hdd : d = bits := List.mem_singleton.1 hd
        rw [hdd]
        calc bits < 2 ^ nr := hlt
          _ ≤ 32 := by
            calc (2:Nat) ^ nr ≤ 2 ^ 5 := Nat.pow_le_pow_right (by omega) hnr
              _ = 32 := by norm_num
      · simp [digitVal, byteVal]
      · simp
        omega
    · have hnr0 : nr = 0 := by omega
      subst hnr0
      have hb0 : bits = 0 := by omega
      subst hb0
      have hcore : Base32.encodeCore [] 0 0 = [] := by
        unfold Base32.encodeCore
        rw [if_neg (by omega)]
      rw [hcore]
      exact ⟨by simp, by simp [digitVal, byteVal], by simp⟩
  | cons b bs ih =>
    intro bits nr hb hlt hnr
    have hbb : b < 256 := hb b (by simp)
    have hshift : (b <<< nr) % 65536 = b <<< nr := by
      apply Nat.mod_eq_of_lt
      rw [Nat.shiftLeft_eq]
      calc b * 2 ^ nr < 256 * 2 ^ nr := by
            apply Nat.mul_lt_mul_right (Nat.two_pow_pos nr) |>.mpr hbb
        _ ≤ 256 * 2 ^ 5 := by
            have := Nat.pow_le_pow_right (show 0 < 2 by omega) hnr
            omega
        _ < 65536 := by norm_num
    have hlor : bits ||| ((b <<< nr) % 65536) = 2 ^ nr * b + bits := by
      rw [hshift, lor_shiftLeft_eq_add _ _ _ hlt]
    have hbits1 : 2 ^ nr * b + bits < 2 ^ (nr + 8) := by
      have h1 : 2 ^ nr * b + bits < 2 ^ nr * 256 := by nlinarith
      calc 2 ^ nr * b + bits < 2 ^ nr * 256 := h1
        _ = 2 ^ (nr + 8) := by rw [pow_add]; norm_num
    obtain ⟨ds, b2, n2, heq, hd32, hval, hcnt, hb2, hn2, hnil, hpos⟩ :=
      drainF_spec (nr + 8) (nr + 8) (2 ^ nr * b + bits) (by omega) hbits1
    have hcore : Base32.encodeCore (b :: bs) bits nr = ds ++ Base32.encodeCore bs b2 n2 := by
      show (let bits1 := bits ||| ((b <<< nr) % 65536)
        match Base32.drain bits1 (nr + 8) with
        | (ds, bits2, nr2) => ds ++ Base32.encodeCore bs bits2 nr2) = _
      rw [show (bits ||| ((b <<< nr) % 65536)) = 2 ^ nr * b + bits from hlor]
      show (match Base32.drainF (nr + 8) (2 ^ nr * b + bits) (nr + 8) with
        | (ds, bits2, nr2) => ds ++ Base32.encodeCore bs bits2 nr2) = _
      rw [heq]
    obtain ⟨ihd32, ihval, ihlen⟩ := ih b2 n2 (fun x hx => hb x (by simp [hx])) hb2 hn2
    rw [hcore]
    refine ⟨?_, ?_, ?_⟩
    · intro d hd
      rcases List.mem_append.1 hd with h | h
      · exact hd32 d h
      · exact ihd32 d h
    · rw [digitVal_append, ihval]
      have hp : (32:Nat) ^ ds.length = 2 ^ (5 * ds.length) := by
        rw [show (32:Nat) = 2 ^ 5 by norm_num, ← pow_mul]
      rw [hp] at hval
      rw [hp]
      have hpow : 2 ^ (5 * ds.length) * 2 ^ n2 = 2 ^ (nr + 8) := by
        rw [← pow_add]
        congr 1
        omega
      have hby : byteVal (b :: bs) = b + 256 * byteVal bs := rfl
      rw [hby]
      have h28 : (2:Nat) ^ (nr + 8) = 2 ^ nr * 256 := by rw [pow_add]; norm_num
      calc digitVal ds + 2 ^ (5 * ds.length) * (b2 + 2 ^ n2 * byteVal bs)
          = (digitVal ds + 2 ^ (5 * ds.length) * b2) +
            (2 ^ (5 * ds.length) * 2 ^ n2) * byteVal bs := by ring
        _ = (2 ^ nr * b + bits) + 2 ^ (nr + 8) * byteVal bs := by rw [hval, hpow]
        _ = bits + 2 ^ nr * (b + 256 * byteVal bs) := by rw [h28]; ring
    · rw [List.length_append, ihlen]
      simp only [List.length_cons]
      omega


theorem chr_rev : ∀ d : Fin 32,
    Base32.base32Rev (Base32.BASE32_CHARS.getD d.val 0) = d.val := by decide


theorem decodeCore_cons (c : Nat) (cs : List Nat) (bits nr : Nat) :
    Base32.decodeCore (c :: cs) bits nr =
      (if Base32.base32Rev c = 255 then none
      else
        let bits1 := bits ||| ((Base32.base32Rev c <<< nr) % 65536)
        if 8 ≤ nr + 5 then
          match Base32.decodeCore cs (bits1 >>> 8) (nr + 5 - 8) with
          | none => none
          | some (out, b2, n2) => some (bits1 % 256 :: out, b2, n2)
        else Base32.decodeCore cs bits1 (nr + 5)) := rfl


theorem decodeCore_spec : ∀ (ds : List Nat) (bits nr : Nat), (∀ d ∈ ds, d < 32) →
    bits < 2 ^ nr → nr ≤ 7 →
    ∃ out b2 n2,
      Base32.decodeCore (ds.map (fun d => Base32.BASE32_CHARS.getD d 0)) bits nr =
        some (out, b2, n2) ∧
      (∀ o ∈ out, o < 256) ∧
      byteVal out + 2 ^ (8 * out.length) * b2 = bits + 2 ^ nr * digitVal ds ∧
      8 * out.length + n2 = nr + 5 * ds.length ∧
      b2 < 2 ^ n2 ∧ n2 ≤ 7 := by
  intro ds
  induction ds with
  | nil =>
    intro bits nr hd hlt hnr
    exact ⟨[], bits, nr, rfl, by simp, by simp [byteVal, digitVal], by simp, hlt, hnr⟩
  | cons d ds ih =>
    intro bits nr hd hlt hnr
    have hd32 : d < 32 := hd d (by simp)
    have hrev : Base32.base32Rev (Base32.BASE32_CHARS.getD d 0) = d := chr_rev ⟨d, hd32⟩
    have hshift : (d <<< nr) % 65536 = d <<< nr := by
      apply Nat.mod_eq_of_lt
      rw [Nat.shiftLeft_eq]
      have h1 : d * 2 ^ nr < 32 * 2 ^ nr := by
        exact (Nat.mul_lt_mul_right (Nat.two_pow_pos nr)).mpr hd32
      have h2 : (2:Nat) ^ nr ≤ 2 ^ 7 := Nat.pow_le_pow_right (by omega) hnr
      have : (2:Nat) ^ 7 = 128 := by norm_num
      omega
    have hlor : bits ||| ((d <<< nr) % 65536) = 2 ^ nr * d + bits := by
      rw [hshift, lor_shiftLeft_eq_add _ _ _ hlt]
    have hbits1 : 2 ^ nr * d + bits < 2 ^ (nr + 5) := by
      have h1 : 2 ^ nr * d + bits < 2 ^ nr * 32 := by nlinarith
      calc 2 ^ nr * d + bits < 2 ^ nr * 32 := h1
        _ = 2 ^ (nr + 5) := by rw [pow_add]; norm_num
    by_cases h8 : 8 ≤ nr + 5
    · have hdiv : (2 ^ nr * d + bits) >>> 8 < 2 ^ (nr + 5 - 8) := by
        rw [Nat.shiftRight_eq_div_pow]
        apply Nat.div_lt_of_lt_mul
        calc 2 ^ nr * d + bits < 2 ^ (nr + 5) := hbits1
          _ = 2 ^ 8 * 2 ^ (nr + 5 - 8) := by rw [← pow_add]; congr 1; omega
      obtain ⟨out, b2, n2, heq, ho, hval, hcnt, hb2, hn2⟩ :=
        ih ((2 ^ nr * d + bits) >>> 8) (nr + 5 - 8)
          (fun x hx => hd x (by simp [hx])) hdiv (by omega)
      refine ⟨(2 ^ nr * d + bits) % 256 :: out, b2, n2, ?_, ?_, ?_, ?_, hb2, hn2⟩
      · rw [List.map_cons, decodeCore_cons, hrev, if_neg (show ¬ (d = 255) by omega)]
        rw [hlor, if_pos h8, heq]
      · intro o hom
        rcases List.mem_cons.1 hom with h | h
        · rw [h]; exact Nat.mod_lt _ (by omega)
        · exact ho o h
      · have hby : byteVal ((2 ^ nr * d + bits) % 256 :: out) =
            (2 ^ nr * d + bits) % 256 + 256 * byteVal out := rfl
        rw [hby]
        have hsh : (2 ^ nr * d + bits) >>> 8 = (2 ^ nr * d + bits) / 256 := by
          rw [Nat.shiftRight_eq_div_pow]
        rw [hsh] at hval
        have hdig : digitVal (d :: ds) = d + 32 * digitVal ds := rfl
        rw [hdig]
        simp only [List.length_cons]
        have hmd : (2 ^ nr * d + bits) % 256 + 256 * ((2 ^ nr * d + bits) / 256) =
            2 ^ nr * d + bits := Nat.mod_add_div _ 256
        have hpow : (2:Nat) ^ (8 * (out.length + 1)) = 256 * 2 ^ (8 * out.length) := by
          rw [show 8 * (out.length + 1) = 8 + 8 * out.length by ring, pow_add]
          norm_num
        rw [hpow]
        have hc2 : 256 * (2:Nat) ^ (nr + 5 - 8) = 2 ^ nr * 32 := by
          rw [show (256:Nat) = 2 ^ 8 by norm_num, ← pow_add,
            show 8 + (nr + 5 - 8) = nr + 5 by omega, pow_add]
          norm_num
        calc (2 ^ nr * d + bits) % 256 + 256 * byteVal out + 256 * 2 ^ (8 * out.length) * b2
            = (2 ^ nr * d + bits) % 256 +
              256 * (byteVal out + 2 ^ (8 * out.length) * b2) := by ring
          _ = (2 ^ nr * d + bits) % 256 +
              256 * ((2 ^ nr * d + bits) / 256 + 2 ^ (nr + 5 - 8) * digitVal ds) := by rw [hval]
          _ = ((2 ^ nr * d + bits) % 256 + 256 * ((2 ^ nr * d + bits) / 256)) +
              (256 * 2 ^ (nr + 5 - 8)) * digitVal ds := by ring
          _ = (2 ^ nr * d + bits) + (256 * 2 ^ (nr + 5 - 8)) * digitVal ds := by rw [hmd]
          _ = (2 ^ nr * d + bits) + (2 ^ nr * 32) * digitVal ds := by rw [hc2]
          _ = bits + 2 ^ nr * (d + 32 * digitVal ds) := by ring
      · simp only [List.length_cons]
        omega
    · obtain ⟨out, b2, n2, heq, ho, hval, hcnt, hb2, hn2⟩ :=
        ih (2 ^ nr * d + bits) (nr + 5)
          (fun x hx => hd x (by simp [hx])) hbits1 (by omega)
      refine ⟨out, b2, n2, ?_, ho, ?_, ?_, hb2, hn2⟩
      · rw [List.map_cons, decodeCore_cons, hrev, if_neg (show ¬ (d = 255) by omega)]
        rw [hlor, if_neg h8, heq]
      · rw [hval]
        have hdig : digitVal (d :: ds) = d + 32 * digitVal ds := rfl
        rw [hdig]
        have hpow2 : (2:Nat) ^ (nr + 5) = 2 ^ nr * 32 := by
          rw [pow_add]
          norm_num
        rw [hpow2]
        ring
      · simp only [List.length_cons]
        omega


theorem base32_roundtrip (b : List Nat) (hb : ∀ x ∈ b, x < 256) :
    Base32.decode (Base32.encode b) = some b ∧
      (Base32.encode b).length = Base32.encodeLen b.length := by
  have hd32 : ∀ d ∈ Base32.encodeDigits b, d < 32 :=
    (encodeCore_spec b 0 0 hb (by norm_num) (by omega)).1
  have hval : digitVal (Base32.encodeDigits b) = byteVal b := by
    have := (encodeCore_spec b 0 0 hb (by norm_num) (by omega)).2.1
    simpa using this
  have hlen : (Base32.encodeDigits b).length = (8 * b.length + 4) / 5 := by
    have := (encodeCore_spec b 0 0 hb (by norm_num) (by omega)).2.2
    simpa using this
  have henc : Base32.encode b =
      (Base32.encodeDigits b).reverse.map (fun d => Base32.BASE32_CHARS.getD d 0) := rfl
  constructor
  · have hrev : (Base32.encode b).reverse =
        (Base32.encodeDigits b).map (fun d => Base32.BASE32_CHARS.getD d 0) := by
      rw [henc, ← List.map_reverse, List.reverse_reverse]
    obtain ⟨out, b2, n2, heq, ho, hval2, hcnt, hb2, hn2⟩ :=
      decodeCore_spec (Base32.encodeDigits b) 0 0 hd32 (by norm_num) (by omega)
    rw [hlen] at hcnt
    have hout : out.length = b.length := by omega
    have hval2x : byteVal out + 2 ^ (8 * b.length) * b2 = byteVal b := by
      rw [hout] at hval2
      rw [hval] at hval2
      simpa using hval2
    have hblt : byteVal b < 2 ^ (8 * b.length) := by
      calc byteVal b < 256 ^ b.length := byteVal_lt b hb
        _ = 2 ^ (8 * b.length) := by
          rw [show (256:Nat) = 2 ^ 8 by norm_num, ← pow_mul]
    have hb20 : b2 = 0 := by
      by_contra hb2n
      have h2 : 2 ^ (8 * b.length) * 1 ≤ 2 ^ (8 * b.length) * b2 :=
        Nat.mul_le_mul_left _ (Nat.pos_of_ne_zero hb2n)
      rw [mul_one] at h2
      omega
    have hvo : byteVal out = byteVal b := by
      rw [hb20, Nat.mul_zero] at hval2x
      omega
    have houtb : out = b := byteVal_inj out b hout ho hb hvo
    show (match Base32.decodeCore (Base32.encode b).reverse 0 0 with
      | none => none
      | some (out, bits, nrBits) => if 0 < nrBits ∧ bits ≠ 0 then none else some out) = some b
    rw [hrev, heq]
    dsimp only
    have hcond : ¬ (0 < n2 ∧ b2 ≠ 0) := by
      intro hc
      exact hc.2 hb20
    rw [if_neg hcond, houtb]
  · rw [henc, List.length_map, List.length_reverse, hlen]
    unfold Base32.encodeLen
    by_cases hn : b.length = 0
    · rw [if_pos hn, hn]
    · rw [if_neg hn]
      omega



/-- Claim C7: base32 decode inverts encode on every byte string; the
encoding of n input bytes has exactly (8n - 1)/5 + 1 characters for n > 0
(integer division, as the length formula of the source computes it) and 0
characters for the empty input; and the concrete 20-byte S1 vector encodes
to x0xf8v9fxf3jk8zln1cwlsrmhqvp0f88 and decodes back. -/
theorem claim_C7 :
    (∀ b : List Nat, (∀ x ∈ b, x < 256) →
        Base32.decode (Base32.encode b) = some b ∧
        (Base32.encode b).length = Base32.encodeLen b.length) ∧
      Base32.encodeLen 0 = 0 ∧
      (∀ n : Nat, 0 < n → Base32.encodeLen n = (8 * n - 1) / 5 + 1) ∧
      Base32.encode
          [0x08, 0x39, 0x70, 0x37, 0x86, 0x35, 0x6b, 0xca, 0x59, 0xb0,
           0xf4, 0xa3, 0x29, 0x87, 0xeb, 0x2e, 0x6d, 0xe4, 0x3a, 0xe8] =
        asciiBytes "x0xf8v9fxf3jk8zln1cwlsrmhqvp0f88" ∧
      Base32.decode (asciiBytes "x0xf8v9fxf3jk8zln1cwlsrmhqvp0f88") =
        some [0x08, 0x39, 0x70, 0x37, 0x86, 0x35, 0x6b, 0xca, 0x59, 0xb0,
              0xf4, 0xa3, 0x29, 0x87, 0xeb, 0x2e, 0x6d, 0xe4, 0x3a, 0xe8] := by
  refine ⟨fun b hb => base32_roundtrip b hb, rfl, ?_, by decide, by decide⟩
  intro n hn
  unfold Base32.encodeLen
  rw [if_neg (by omega)]
  have : n * 8 = 8 * n := by ring
  rw [this]

/-- Witness for C7 at the two-byte string [0, 255] and at n = 1. -/
theorem claim_C7_witness :
    ((∀ x ∈ ([0, 255] : List Nat), x < 256) ∧
        (Base32.decode (Base32.encode [0, 255]) = some [0, 255] ∧
          (Base32.encode [0, 255]).length = Base32.encodeLen ([0, 255] : List Nat).length)) ∧
      (0 < 1 ∧ Base32.encodeLen 1 = (8 * 1 - 1) / 5 + 1) :=
  ⟨⟨by decide, claim_C7.1 [0, 255] (by decide)⟩,
    ⟨by decide, claim_C7.2.2.1 1 (by decide)⟩⟩

end RsStore
